import Mathlib

/-!
Verification development for the keyboard-piano repository.

The repository is two Python files:
  * `keyboard_piano.py` — note table, key→note table, sine-tone synthesis
    (`generate_tone_samples`), WAV rendering of a fixed song sequence
    (`generate_audio_file`), sequential playback (`play_sequence`), and an
    interactive `pynput` listener (`on_press`).
  * `piano.py` — a pygame variant with an auto-played sequence and an
    interactive event loop.

Modelling conventions:
  * Python floats are idealised as exact rationals (`ℚ`).  Python `int(x)`
    truncates toward zero and `round(x)` rounds half-to-even; both are
    embedded explicitly (`pyInt`, `pyRound`).
  * `math.sin` is an external floating-point routine; it is modelled as an
    abstract parameter `sinF : ℚ → ℚ` (an IEEE double is a rational, so a
    float→float routine is a function on rationals).  Facts about it that a
    claim needs (for instance `|sinF x| ≤ 1`, or `sinF 0 = 0`) appear as
    explicit hypotheses.  `math.pi` is embedded as the exact rational value
    of the IEEE-754 double nearest π.
  * `str.lower` / `str.upper` are modelled on the ASCII range (identity
    elsewhere), which covers the whole key repertoire of the program.
-/

/-- Python `int(q)` on a number: truncation toward zero. -/
def pyInt (q : ℚ) : ℤ :=
  if 0 ≤ q then ⌊q⌋ else ⌈q⌉

/-- Python `round(q)` to an integer: round half to even (banker's rounding). -/
def pyRound (q : ℚ) : ℤ :=
  let f := ⌊q⌋
  if q - f < 1/2 then f
  else if 1/2 < q - f then f + 1
  else if f % 2 = 0 then f else f + 1

/-- Python `str.lower` on a single character, modelled on the ASCII range
(identity on every other character). -/
def pyLower (c : Char) : Char :=
  if 65 ≤ c.toNat ∧ c.toNat ≤ 90 then Char.ofNat (c.toNat + 32) else c

/-- Python `str.upper` on a single character, modelled on the ASCII range
(identity on every other character). -/
def pyUpper (c : Char) : Char :=
  if 97 ≤ c.toNat ∧ c.toNat ≤ 122 then Char.ofNat (c.toNat - 32) else c

/-- The IEEE-754 double `math.pi`, as an exact rational. -/
def mathPi : ℚ := 884279719003555 / 281474976710656

/-- NOTE_FREQUENCIES from keyboard_piano.py lines 16–35: note name → Hz. -/
def NOTE_FREQUENCIES : List (String × ℚ) :=
  [("C", 261.63), ("C#", 277.18), ("D", 293.66), ("D#", 311.13),
   ("E", 329.63), ("F", 349.23), ("F#", 369.99), ("G", 392.00),
   ("G#", 415.30), ("A", 440.00), ("A#", 466.16), ("B", 493.88),
   ("C5", 523.25), ("C#5", 554.37), ("D5", 587.33), ("D#5", 622.25),
   ("E5", 659.25), ("F5", 698.46)]

/-- KEY_NOTE_MAP from keyboard_piano.py lines 46–71: keyboard character →
note name, with `none` (Python `None`) marking the rest key (Enter, `\r`). -/
def KEY_NOTE_MAP : List (Char × Option String) :=
  [('a', some "C"), ('s', some "D"), ('d', some "E"), ('f', some "F"),
   ('g', some "G"), ('h', some "A"), ('j', some "B"), ('k', some "C5"),
   ('l', some "D5"), (';', some "E5"), ('\'', some "F5"),
   ('w', some "C#"), ('e', some "D#"), ('t', some "F#"), ('y', some "G#"),
   ('u', some "A#"), ('o', some "C#5"), ('p', some "D#5"),
   ('\r', none)]

/-- Frequency of a note name via NOTE_FREQUENCIES (every note that
KEY_NOTE_MAP can produce is present, so the Python `KeyError` case is
unreachable; the default 0 is never used on reachable inputs). -/
def freqOf (note : String) : ℚ :=
  (List.lookup note NOTE_FREQUENCIES).getD 0

/-- generate_tone_samples from keyboard_piano.py lines 73–84:
`frames = int(duration * sample_rate)`; sample `i` is
`int(32767 * sin(2·π·frequency·i / sample_rate))`.  `sinF` stands for the
external `math.sin`. -/
def generate_tone_samples (sinF : ℚ → ℚ) (frequency duration sample_rate : ℚ) :
    List ℤ :=
  (List.range (pyInt (duration * sample_rate)).toNat).map fun i : ℕ =>
    pyInt (32767 * sinF (2 * mathPi * frequency * (i : ℚ) / sample_rate))

/-- Samples contributed by one character of the sequence in
generate_audio_file (keyboard_piano.py lines 163–185): a mapped key yields a
synthesised tone, the rest key yields `int(note_duration*sample_rate)` zeros,
a space yields `int(0.08*sample_rate)` zeros, a newline yields
`int(0.18*sample_rate)` zeros, and any other character yields nothing. -/
def charSamples (sinF : ℚ → ℚ) (note_duration sample_rate : ℚ) (c : Char) :
    List ℤ :=
  match List.lookup (pyLower c) KEY_NOTE_MAP with
  | some (some note) => generate_tone_samples sinF (freqOf note) note_duration sample_rate
  | some none => List.replicate (pyInt (note_duration * sample_rate)).toNat 0
  | none =>
    if c = ' ' then List.replicate (pyInt (0.08 * sample_rate)).toNat 0
    else if c = '\n' then List.replicate (pyInt (0.18 * sample_rate)).toNat 0
    else []

/-- Sample buffer accumulated by generate_audio_file (keyboard_piano.py
lines 157–185): the sequence is traversed twice (`for loop in range(2)`),
each character appending its `charSamples`. -/
def generate_audio_file_samples (sinF : ℚ → ℚ) (sequence : List Char)
    (note_duration sample_rate : ℚ) : List ℤ :=
  (List.range 2).flatMap fun _ =>
    sequence.flatMap (charSamples sinF note_duration sample_rate)

/-- Little-endian two-byte signed encoding of one sample, as produced by
`int(s).to_bytes(2, byteorder='little', signed=True)` (keyboard_piano.py
line 198) for `s` in the signed 16-bit range. -/
def sampleBytes (s : ℤ) : List ℕ :=
  [(s % 65536).toNat % 256, (s % 65536).toNat / 256]

/-- Byte payload written by `wav_file.writeframes` in generate_audio_file
(keyboard_piano.py lines 197–199): the concatenated little-endian encodings
of all samples. -/
def wavDataBytes (samples : List ℤ) : List ℕ :=
  samples.flatMap sampleBytes

/-- Outcome of resolving one symbol against the key→note table. -/
inductive Resolution where
  | note (name : String)
  | rest
  | unrecognized
deriving DecidableEq, Repr

/-- Symbol-to-note resolution shared by generate_audio_file (lines 163–165)
and play_sequence (lines 215–216): case-insensitive lookup of the character
in KEY_NOTE_MAP; a `None` value is the rest sentinel. -/
def resolveSymbol (c : Char) : Resolution :=
  match List.lookup (pyLower c) KEY_NOTE_MAP with
  | some (some note) => Resolution.note note
  | some none => Resolution.rest
  | none => Resolution.unrecognized

/-- Action taken for one character of a sequence, covering the full branch
structure of the sequencer loops (note / rest / space / newline / ignored). -/
inductive SymbolAction where
  | note (name : String)
  | rest
  | space
  | newline
  | unknown
deriving DecidableEq, Repr

/-- Branch taken for a character by generate_audio_file (keyboard_piano.py
lines 163–185): mapped key → note or rest; then space; then newline; any
other character falls through with no effect. -/
def classifyGenerate (c : Char) : SymbolAction :=
  match List.lookup (pyLower c) KEY_NOTE_MAP with
  | some (some note) => SymbolAction.note note
  | some none => SymbolAction.rest
  | none =>
    if c = ' ' then SymbolAction.space
    else if c = '\n' then SymbolAction.newline
    else SymbolAction.unknown

/-- Branch taken for a character by play_sequence (keyboard_piano.py lines
214–228): mapped key → note or rest; then space; then newline; any other
character prints "Unknown key" and has no musical effect. -/
def classifyPlay (c : Char) : SymbolAction :=
  match List.lookup (pyLower c) KEY_NOTE_MAP with
  | some (some note) => SymbolAction.note note
  | some none => SymbolAction.rest
  | none =>
    if c = ' ' then SymbolAction.space
    else if c = '\n' then SymbolAction.newline
    else SymbolAction.unknown

/-- Duration (in seconds) that generate_audio_file assigns to one character:
`note_duration` for a note or the rest key, 0.08 s for a space, 0.18 s for a
newline, nothing for an unrecognized character. -/
def assignedDuration (note_duration : ℚ) (c : Char) : ℚ :=
  match List.lookup (pyLower c) KEY_NOTE_MAP with
  | some (some _) => note_duration
  | some none => note_duration
  | none =>
    if c = ' ' then 0.08
    else if c = '\n' then 0.18
    else 0

/-- Sum of the assigned durations over one traversal of a sequence. -/
def totalAssigned (note_duration : ℚ) (sequence : List Char) : ℚ :=
  (sequence.map (assignedDuration note_duration)).sum

/-! Helper lemmas. -/

theorem char_toNat_ofNat (n : ℕ) (h : n < 55296) : (Char.ofNat n).toNat = n := by
  simp [Char.ofNat, Nat.isValidChar, h, Char.ofNatAux, Char.toNat, UInt32.toNat,
    BitVec.toNat_ofNatLt]

theorem pyLower_pyLower (c : Char) : pyLower (pyLower c) = pyLower c := by
  by_cases h : 65 ≤ c.toNat ∧ c.toNat ≤ 90
  · have h2 : (Char.ofNat (c.toNat + 32)).toNat = c.toNat + 32 :=
      char_toNat_ofNat _ (by omega)
    simp only [pyLower, if_pos h]
    rw [if_neg (by rw [h2]; omega)]
  · simp only [pyLower, if_neg h]

theorem pyLower_pyUpper (c : Char) : pyLower (pyUpper c) = pyLower c := by
  unfold pyUpper pyLower
  by_cases h : 97 ≤ c.toNat ∧ c.toNat ≤ 122
  · rw [if_pos h]
    have h2 : (Char.ofNat (c.toNat - 32)).toNat = c.toNat - 32 :=
      char_toNat_ofNat _ (by omega)
    simp only [h2]
    rw [if_pos (show 65 ≤ c.toNat - 32 ∧ c.toNat - 32 ≤ 90 by omega),
      if_neg (show ¬(65 ≤ c.toNat ∧ c.toNat ≤ 90) by omega)]
    have h3 : c.toNat - 32 + 32 = c.toNat := by omega
    rw [h3, Char.ofNat_toNat]
  · rw [if_neg h]

theorem pyInt_of_nonneg (q : ℚ) (h : 0 ≤ q) : pyInt q = ⌊q⌋ := by
  simp [pyInt, h]

theorem pyInt_zero : pyInt 0 = 0 := by norm_num [pyInt]

theorem generate_tone_samples_length (sinF : ℚ → ℚ) (f d r : ℚ) :
    (generate_tone_samples sinF f d r).length = (pyInt (d * r)).toNat := by
  unfold generate_tone_samples
  rw [List.length_map, List.length_range]

/-- C6: symbol-to-note resolution is a pure lookup (a Lean function of the
character alone) and is case-insensitive: resolving a character, its
lowercase form and its uppercase form all agree. -/
theorem resolveSymbol_case_insensitive (c : Char) :
    resolveSymbol (pyLower c) = resolveSymbol c ∧
      resolveSymbol (pyUpper c) = resolveSymbol c := by
  constructor
  · simp only [resolveSymbol, pyLower_pyLower]
  · simp only [resolveSymbol, pyLower_pyUpper]

/-- C8: play_sequence and generate_audio_file classify every character
identically (same lookup in KEY_NOTE_MAP via the lowercased character, same
rest / space / newline / unknown branches). -/
theorem classifyPlay_eq_classifyGenerate (c : Char) :
    classifyPlay c = classifyGenerate c := rfl

/-- C1 counterexample: at frequency 440, duration 1/2 and sample rate 3 the
code produces `int(1/2 * 3) = 1` sample, not `round(1/2 * 3) = 2` samples as
the claim states. -/
theorem tone_samples_not_round_counterexample :
    (generate_tone_samples (fun _ => 0) 440 (1/2) 3).length ≠
      (pyRound ((1/2 : ℚ) * 3)).toNat := by
  rw [generate_tone_samples_length]
  have e1 : pyInt ((1/2 : ℚ) * 3) = 1 := by norm_num [pyInt]
  have e2 : pyRound ((1/2 : ℚ) * 3) = 2 := by norm_num [pyRound]
  rw [e1, e2]
  decide

/-- C1 amended: for every frequency, duration and sample rate the tone has
exactly `int(d·r)` samples (truncation toward zero, not rounding), and the
`i`-th sample is `int(32767·sin(2π·f·i/r))` (truncation toward zero). -/
theorem generate_tone_samples_spec (sinF : ℚ → ℚ) (f d r : ℚ)
    (hf : 0 < f) (hd : 0 < d) (hr : 0 < r) :
    (generate_tone_samples sinF f d r).length = (pyInt (d * r)).toNat ∧
      ∀ i, i < (generate_tone_samples sinF f d r).length →
        (generate_tone_samples sinF f d r).getD i 0 =
          pyInt (32767 * sinF (2 * mathPi * f * i / r)) := by
  refine ⟨generate_tone_samples_length sinF f d r, ?_⟩
  intro i hi
  rw [List.getD_eq_getElem _ _ hi]
  unfold generate_tone_samples
  rw [List.getElem_map, List.getElem_range]

/-- Witness for C1 amended: concrete instance at f = 440, d = 1, r = 2 with
the sine routine constantly 1/2. -/
theorem generate_tone_samples_spec_witness :
    (generate_tone_samples (fun _ => 1/2) 440 1 2).length = 2 ∧
      (generate_tone_samples (fun _ => 1/2) 440 1 2).getD 0 0 = 16383 := by
  have h := generate_tone_samples_spec (fun _ => 1/2) 440 1 2
    (by norm_num) (by norm_num) (by norm_num)
  have e1 : pyInt ((1 : ℚ) * 2) = 2 := by norm_num [pyInt]
  have hlen : 0 < (generate_tone_samples (fun _ => (1:ℚ)/2) 440 1 2).length := by
    rw [h.1, e1]; decide
  refine ⟨by rw [h.1, e1]; decide, ?_⟩
  rw [h.2 0 hlen]
  norm_num [pyInt]

/-- C7 counterexample: for duration 1/2 and sample rate 3, the rest key
appends `int(1/2 * 3) = 1` zero sample, not `round(1/2 * 3) = 2` zeros as
the claim states. -/
theorem rest_silence_not_round_counterexample :
    charSamples (fun _ => 0) (1/2) 3 '\r' ≠
      List.replicate (pyRound ((1/2 : ℚ) * 3)).toNat 0 := by
  have e1 : pyInt ((1/2 : ℚ) * 3) = 1 := by norm_num [pyInt]
  have e2 : pyRound ((1/2 : ℚ) * 3) = 2 := by norm_num [pyRound]
  show List.replicate (pyInt ((1/2 : ℚ) * 3)).toNat 0 ≠ _
  rw [e1, e2]
  decide

/-- C7 amended: for every duration and sample rate, a character resolving to
the rest sentinel appends exactly `int(d·r)` zero samples (truncation toward
zero, not rounding). -/
theorem rest_silence_spec (sinF : ℚ → ℚ) (d r : ℚ) (c : Char)
    (hc : resolveSymbol c = Resolution.rest) :
    charSamples sinF d r c = List.replicate (pyInt (d * r)).toNat 0 := by
  unfold resolveSymbol at hc
  cases h : List.lookup (pyLower c) KEY_NOTE_MAP with
  | none => simp [h] at hc
  | some v =>
    cases v with
    | none => simp [charSamples, h]
    | some note => simp [h] at hc

/-- Witness for C7 amended: the Enter key at duration 1 and sample rate 10
appends exactly ten zero samples. -/
theorem rest_silence_spec_witness :
    resolveSymbol '\r' = Resolution.rest ∧
      charSamples (fun _ => 0) 1 10 '\r' =
        List.replicate (pyInt ((1 : ℚ) * 10)).toNat 0 :=
  ⟨by decide, rest_silence_spec (fun _ => 0) 1 10 '\r' (by decide)⟩

theorem pyInt_bounds (q : ℚ) (a b : ℤ) (ha : (a : ℚ) ≤ q) (hb : q ≤ (b : ℚ))
    (ha0 : a ≤ 0) (hb0 : 0 ≤ b) : a ≤ pyInt q ∧ pyInt q ≤ b := by
  unfold pyInt
  by_cases h0 : 0 ≤ q
  · rw [if_pos h0]
    have h1 := Int.floor_nonneg.mpr h0
    have h2 := Int.floor_le_floor hb
    rw [Int.floor_intCast] at h2
    exact ⟨by omega, h2⟩
  · rw [if_neg h0]
    push_neg at h0
    have h1 := Int.ceil_le_ceil ha
    rw [Int.ceil_intCast] at h1
    have h2 : ⌈q⌉ ≤ 0 := Int.ceil_le.mpr (by exact_mod_cast h0.le)
    exact ⟨h1, by omega⟩

theorem pyInt_toNat_le (x : ℚ) (hx : 0 ≤ x) :
    ((pyInt x).toNat : ℚ) ≤ x ∧ x - 1 ≤ ((pyInt x).toNat : ℚ) := by
  rw [pyInt_of_nonneg _ hx]
  have hfl : (0 : ℤ) ≤ ⌊x⌋ := Int.floor_nonneg.mpr hx
  have h1 : ((⌊x⌋.toNat : ℕ) : ℚ) = ((⌊x⌋ : ℤ) : ℚ) := by
    exact_mod_cast Int.toNat_of_nonneg hfl
  rw [h1]
  exact ⟨Int.floor_le x, (Int.sub_one_lt_floor x).le⟩

/-- C4: every sample produced by generate_tone_samples lies in
[-32767, 32767]; the sine routine is used only through the range property
`|sinF x| ≤ 1` that `math.sin` satisfies. -/
theorem generate_tone_samples_sample_range (sinF : ℚ → ℚ) (f d r : ℚ)
    (hsin : ∀ x, |sinF x| ≤ 1) (hf : 0 < f) (hd : 0 < d) (hr : 0 < r) :
    ∀ s ∈ generate_tone_samples sinF f d r, -32767 ≤ s ∧ s ≤ 32767 := by
  intro s hs
  unfold generate_tone_samples at hs
  rw [List.mem_map] at hs
  obtain ⟨i, _, rfl⟩ := hs
  have habs := hsin (2 * mathPi * f * (i : ℚ) / r)
  rw [abs_le] at habs
  apply pyInt_bounds _ (-32767) 32767
  · push_cast
    nlinarith [habs.1]
  · push_cast
    nlinarith [habs.2]
  · norm_num
  · norm_num

/-- Witness for C4: with the sine routine constantly 0 at frequency 440,
duration 1, rate 2, the first sample is within [-32767, 32767]. -/
theorem generate_tone_samples_sample_range_witness :
    -32767 ≤ (generate_tone_samples (fun _ => 0) 440 1 2).getD 0 0 ∧
      (generate_tone_samples (fun _ => 0) 440 1 2).getD 0 0 ≤ 32767 := by
  have h := generate_tone_samples_sample_range (fun _ => 0) 440 1 2
    (fun x => by norm_num) (by norm_num) (by norm_num) (by norm_num)
  have e : generate_tone_samples (fun _ => (0:ℚ)) 440 1 2 = [0, 0] := by
    unfold generate_tone_samples
    have e1 : pyInt ((1 : ℚ) * 2) = 2 := by norm_num [pyInt]
    rw [e1]
    show [pyInt (32767 * 0), pyInt (32767 * 0)] = [0, 0]
    norm_num [pyInt]
  apply h
  rw [e]
  decide

/-- C10: at frequency 0 the synthesis argument is identically 0, so (since
`math.sin 0 = 0` exactly) the tone is an all-zero buffer, of the same length
as the tone at any other frequency. -/
theorem generate_tone_samples_zero_freq (sinF : ℚ → ℚ) (d r : ℚ)
    (hsin : sinF 0 = 0) :
    generate_tone_samples sinF 0 d r =
        List.replicate (pyInt (d * r)).toNat 0 ∧
      ∀ f2 : ℚ, (generate_tone_samples sinF f2 d r).length =
        (generate_tone_samples sinF 0 d r).length := by
  constructor
  · rw [List.eq_replicate_iff]
    refine ⟨generate_tone_samples_length sinF 0 d r, ?_⟩
    intro b hb
    unfold generate_tone_samples at hb
    rw [List.mem_map] at hb
    obtain ⟨i, _, rfl⟩ := hb
    have e : 2 * mathPi * (0 : ℚ) * (i : ℚ) / r = 0 := by ring
    rw [e, hsin, mul_zero, pyInt_zero]
  · intro f2
    rw [generate_tone_samples_length, generate_tone_samples_length]

/-- Witness for C10: concrete instance at duration 1, rate 2, against the
length at frequency 440. -/
theorem generate_tone_samples_zero_freq_witness :
    generate_tone_samples (fun _ => 0) 0 1 2 =
        List.replicate (pyInt ((1 : ℚ) * 2)).toNat 0 ∧
      (generate_tone_samples (fun _ => 0) 440 1 2).length =
        (generate_tone_samples (fun _ => 0) 0 1 2).length := by
  have h := generate_tone_samples_zero_freq (fun _ => 0) 1 2 rfl
  exact ⟨h.1, h.2 440⟩

/-- C3: rendering is deterministic: the sample buffer and the serialized
byte payload are functions of the sequence, note duration and sample rate
alone, so equal inputs give identical buffers and identical bytes. -/
theorem generate_audio_file_deterministic (sinF : ℚ → ℚ)
    (seq1 seq2 : List Char) (d1 d2 r1 r2 : ℚ)
    (hs : seq1 = seq2) (hd : d1 = d2) (hr : r1 = r2) :
    generate_audio_file_samples sinF seq1 d1 r1 =
        generate_audio_file_samples sinF seq2 d2 r2 ∧
      wavDataBytes (generate_audio_file_samples sinF seq1 d1 r1) =
        wavDataBytes (generate_audio_file_samples sinF seq2 d2 r2) := by
  subst hs hd hr
  exact ⟨rfl, rfl⟩

/-- Witness for C3: concrete run rendered twice. -/
theorem generate_audio_file_deterministic_witness :
    generate_audio_file_samples (fun _ => 0) ['\r'] 1 2 =
        generate_audio_file_samples (fun _ => 0) ['\r'] 1 2 ∧
      wavDataBytes (generate_audio_file_samples (fun _ => 0) ['\r'] 1 2) =
        wavDataBytes (generate_audio_file_samples (fun _ => 0) ['\r'] 1 2) :=
  generate_audio_file_deterministic (fun _ => 0) ['\r'] ['\r'] 1 1 2 2
    rfl rfl rfl

/-- C5: a character that is neither mapped, nor a space, nor a newline
contributes no samples, and deleting it from the sequence leaves the
rendered buffer unchanged (the rest of the sequence is still processed; the
Lean model is total, mirroring that the Python loop raises nothing there). -/
theorem unrecognized_char_no_samples (sinF : ℚ → ℚ) (d r : ℚ)
    (xs ys : List Char) (c : Char)
    (hc : classifyGenerate c = SymbolAction.unknown) :
    charSamples sinF d r c = [] ∧
      generate_audio_file_samples sinF (xs ++ c :: ys) d r =
        generate_audio_file_samples sinF (xs ++ ys) d r := by
  have hnil : charSamples sinF d r c = [] := by
    unfold classifyGenerate at hc
    unfold charSamples
    cases h : List.lookup (pyLower c) KEY_NOTE_MAP with
    | some v => cases v <;> simp [h] at hc
    | none =>
      simp only [h] at hc ⊢
      by_cases hsp : c = ' '
      · rw [if_pos hsp] at hc; simp at hc
      · rw [if_neg hsp] at hc ⊢
        by_cases hnl : c = '\n'
        · rw [if_pos hnl] at hc; simp at hc
        · rw [if_neg hnl]
  refine ⟨hnil, ?_⟩
  unfold generate_audio_file_samples
  simp [List.flatMap_append, List.flatMap_cons, hnil]

/-- Witness for C5: the letter z is not a mapped key; it is dropped from the
rendering. -/
theorem unrecognized_char_no_samples_witness :
    charSamples (fun _ => 0) 1 2 'z' = [] ∧
      generate_audio_file_samples (fun _ => 0) ['z'] 1 2 =
        generate_audio_file_samples (fun _ => 0) [] 1 2 :=
  unrecognized_char_no_samples (fun _ => 0) 1 2 [] [] 'z' (by decide)

theorem generate_audio_file_samples_eq_two_loops (sinF : ℚ → ℚ)
    (seq : List Char) (d r : ℚ) :
    generate_audio_file_samples sinF seq d r =
      seq.flatMap (charSamples sinF d r) ++ seq.flatMap (charSamples sinF d r) := by
  show List.flatMap [0, 1] (fun _ => seq.flatMap (charSamples sinF d r)) = _
  simp [List.flatMap_cons, List.flatMap_nil]

theorem charSamples_length (sinF : ℚ → ℚ) (d r : ℚ) (c : Char) :
    (charSamples sinF d r c).length =
      (pyInt (assignedDuration d c * r)).toNat := by
  unfold charSamples assignedDuration
  cases h : List.lookup (pyLower c) KEY_NOTE_MAP with
  | some v =>
    cases v with
    | some note => simp only [h, generate_tone_samples_length]
    | none => simp only [h, List.length_replicate]
  | none =>
    simp only [h]
    by_cases hsp : c = ' '
    · simp [hsp]
    · by_cases hnl : c = '\n'
      · simp [hsp, hnl]
      · simp [hsp, hnl, pyInt_zero]

theorem assignedDuration_nonneg (d : ℚ) (hd : 0 ≤ d) (c : Char) :
    0 ≤ assignedDuration d c := by
  unfold assignedDuration
  split
  · exact hd
  · exact hd
  · split_ifs <;> norm_num

/-- C2 counterexample: generate_audio_file traverses the sequence twice, so
the one-character sequence "a" at note duration 1 s and rate 10 Hz renders
20 samples (2 s), while the claim's one-traversal sum is 1 s — off by ten
samples, far beyond the one-sample-per-symbol rounding allowance. -/
theorem render_duration_one_pass_counterexample :
    (generate_audio_file_samples (fun _ => 0) ['a'] 1 10).length = 20 ∧
      totalAssigned 1 ['a'] * 10 + 1 < 20 := by
  have hlk : List.lookup (pyLower 'a') KEY_NOTE_MAP = some (some "C") := by
    decide
  have e1 : assignedDuration 1 'a' = 1 := by
    unfold assignedDuration
    rw [hlk]
  constructor
  · rw [generate_audio_file_samples_eq_two_loops, List.length_append]
    have h1 : (['a'].flatMap (charSamples (fun _ => (0:ℚ)) 1 10)).length = 10 := by
      rw [List.flatMap_cons, List.flatMap_nil, List.append_nil,
        charSamples_length, e1]
      have e2 : pyInt ((1 : ℚ) * 10) = 10 := by norm_num [pyInt]
      rw [e2]
      rfl
    rw [h1]
  · have e3 : totalAssigned 1 ['a'] = 1 := by
      simp [totalAssigned, e1]
    rw [e3]
    norm_num

/-- C2 amended: the rendered buffer covers TWO traversals of the sequence
(the fixed repeat count of generate_audio_file): its length is exactly twice
the sum of the per-symbol truncated frame counts `int(dur(c)·r)`, hence the
playback duration equals twice the one-traversal sum of assigned durations
(note / rest → note_duration, space → 0.08 s, newline → 0.18 s, unrecognized
→ nothing), up to one sample-rounding unit per symbol per traversal. -/
theorem render_duration_two_pass_spec (sinF : ℚ → ℚ) (seq : List Char)
    (d r : ℚ) (hd : 0 < d) (hr : 0 < r) :
    (generate_audio_file_samples sinF seq d r).length =
        2 * (seq.map fun c => (pyInt (assignedDuration d c * r)).toNat).sum ∧
      ((generate_audio_file_samples sinF seq d r).length : ℚ) ≤
        2 * totalAssigned d seq * r ∧
      2 * totalAssigned d seq * r - 2 * seq.length ≤
        ((generate_audio_file_samples sinF seq d r).length : ℚ) := by
  have hlen : (generate_audio_file_samples sinF seq d r).length =
      2 * (seq.map fun c => (pyInt (assignedDuration d c * r)).toNat).sum := by
    rw [generate_audio_file_samples_eq_two_loops, List.length_append,
      List.length_flatMap]
    simp only [Function.comp_def, charSamples_length]
    omega
  have key : ∀ s : List Char,
      ((s.map fun c => (pyInt (assignedDuration d c * r)).toNat).sum : ℚ) ≤
          totalAssigned d s * r ∧
        totalAssigned d s * r - s.length ≤
          ((s.map fun c => (pyInt (assignedDuration d c * r)).toNat).sum : ℚ) := by
    intro s
    induction s with
    | nil => simp [totalAssigned]
    | cons c cs ih =>
      have hx : 0 ≤ assignedDuration d c * r :=
        mul_nonneg (assignedDuration_nonneg d hd.le c) hr.le
      have hb := pyInt_toNat_le _ hx
      have ht : totalAssigned d (c :: cs) =
          assignedDuration d c + totalAssigned d cs := by
        simp [totalAssigned]
      constructor
      · rw [List.map_cons, List.sum_cons, ht, add_mul, Nat.cast_add]
        linarith [hb.1, ih.1]
      · rw [List.map_cons, List.sum_cons, ht, add_mul, List.length_cons]
        simp only [Nat.cast_add, Nat.cast_one]
        linarith [hb.2, ih.2]
  refine ⟨hlen, ?_, ?_⟩
  · rw [hlen]
    simp only [Nat.cast_mul, Nat.cast_ofNat]
    linarith [(key seq).1]
  · rw [hlen]
    simp only [Nat.cast_mul, Nat.cast_ofNat]
    linarith [(key seq).2]

/-- Witness for C2 amended: concrete instance on the one-character sequence
containing only the rest key, at note duration 1 and rate 2. -/
theorem render_duration_two_pass_spec_witness :
    (generate_audio_file_samples (fun _ => 0) ['\r'] 1 2).length =
        2 * (['\r'].map fun c => (pyInt (assignedDuration 1 c * 2)).toNat).sum ∧
      ((generate_audio_file_samples (fun _ => 0) ['\r'] 1 2).length : ℚ) ≤
        2 * totalAssigned 1 ['\r'] * 2 ∧
      2 * totalAssigned 1 ['\r'] * 2 - 2 * (['\r'] : List Char).length ≤
        ((generate_audio_file_samples (fun _ => 0) ['\r'] 1 2).length : ℚ) :=
  render_duration_two_pass_spec (fun _ => 0) ['\r'] 1 2 (by norm_num)
    (by norm_num)

/-! Interactive-mode models (C9). -/

/-- Event delivered by the pygame event queue to piano.py's interactive
loop: window close (QUIT) or a key press carrying its key code. -/
inductive PgEvent where
  | quit
  | keydown (key : ℕ)
deriving DecidableEq, Repr

/-- Key codes of piano.py's key_freq_map (the keys of the `sounds` dict):
a s d f g h j k l ; ' RETURN w e t y u o p [ ]. -/
def KEY_FREQ_KEYS : List ℕ :=
  [97, 115, 100, 102, 103, 104, 106, 107, 108, 59, 39, 13,
   119, 101, 116, 121, 117, 111, 112, 91, 93]

/-- Sound played by one event in piano.py's interactive loop body (lines
132–139): QUIT plays nothing; a KEYDOWN plays nothing if it is ESC (code
27), plays its key if the key is in `sounds`, otherwise nothing. -/
def pgEventPlays : PgEvent → Option ℕ
  | PgEvent.quit => none
  | PgEvent.keydown k =>
    if k = 27 then none
    else if k ∈ KEY_FREQ_KEYS then some k else none

/-- Whether an event sets `running` to False in piano.py's interactive loop
(lines 133–137): QUIT or the ESC key. -/
def pgEventQuits : PgEvent → Bool
  | PgEvent.quit => true
  | PgEvent.keydown k => k == 27

/-- Modelled from the spec: pygame's `event.get()` (external collaborator)
hands the loop successive batches of pending events; the embedding takes the
finite trace of batches as input.  Interactive loop of piano.py lines
129–141: each iteration handles every event of the current batch — playing
mapped keys and clearing `running` on QUIT/ESC — and the `while running`
test is only re-evaluated between batches. -/
def runPygameInteractive : List (List PgEvent) → List ℕ
  | [] => []
  | b :: bs =>
    b.filterMap pgEventPlays ++
      (if b.any pgEventQuits then [] else runPygameInteractive bs)

/-- Key event delivered by the pynput listener to on_press
(keyboard_piano.py lines 230–252). -/
inductive PKey where
  | char (c : Char)
  | enter
  | esc
  | other
deriving DecidableEq, Repr

/-- Note resolved and played by on_press (keyboard_piano.py lines 230–252)
for one key event: a printable key is lowercased and looked up in
KEY_NOTE_MAP (a `None` value — the rest key — plays nothing); Enter is
treated as the rest key; ESC stops the listener and plays nothing; any other
special key is ignored. -/
def onPressNote : PKey → Option String
  | PKey.char c =>
    match List.lookup (pyLower c) KEY_NOTE_MAP with
    | some (some n) => some n
    | some none => none
    | none => none
  | PKey.enter =>
    match List.lookup '\r' KEY_NOTE_MAP with
    | some (some n) => some n
    | some none => none
    | none => none
  | PKey.esc => none
  | PKey.other => none

/-- Modelled from the spec: the pynput listener (external collaborator)
delivers key events to on_press one at a time and stops as soon as on_press
returns False, which it does exactly for ESC (keyboard_piano.py lines
240–242).  The embedding runs over the finite trace of key events and
collects the notes played. -/
def runPynputListener : List PKey → List String
  | [] => []
  | PKey.esc :: _ => []
  | k :: ks => (onPressNote k).toList ++ runPynputListener ks

/-- C9 counterexample: in piano.py's interactive loop, when the ESC key and
the a-key (code 97) arrive in the same `event.get()` batch, the a-key is
still played after the quit signal was received — the loop only stops after
finishing the whole batch, so a subsequent key event IS processed. -/
theorem quit_key_same_batch_counterexample :
    runPygameInteractive [[PgEvent.keydown 27, PgEvent.keydown 97]] =
      [97] := by decide

/-- C9 amended: the pynput interactive mode processes no key event after
ESC; the pygame interactive mode processes no event from any batch after the
batch containing the quit signal (but does finish that batch, as the
counterexample shows). -/
theorem quit_key_stops_loop :
    (∀ xs ys, runPynputListener (xs ++ PKey.esc :: ys) =
        runPynputListener xs) ∧
      ∀ (bs1 : List (List PgEvent)) (b : List PgEvent)
        (bs2 : List (List PgEvent)), b.any pgEventQuits = true →
        runPygameInteractive (bs1 ++ b :: bs2) =
          runPygameInteractive (bs1 ++ [b]) := by
  constructor
  · intro xs ys
    induction xs with
    | nil => rfl
    | cons k ks ih => cases k <;> simp [runPynputListener, ih]
  · intro bs1 b bs2 hb
    induction bs1 with
    | nil => simp [runPygameInteractive, hb]
    | cons b0 bs ih => simp [runPygameInteractive, ih]

/-- Witness for C9 amended: a key after ESC (pynput) and a batch after a
QUIT batch (pygame) are both ignored. -/
theorem quit_key_stops_loop_witness :
    runPynputListener [PKey.char 'a', PKey.esc, PKey.char 's'] =
        runPynputListener [PKey.char 'a'] ∧
      runPygameInteractive [[PgEvent.keydown 97], [PgEvent.quit],
          [PgEvent.keydown 115]] =
        runPygameInteractive [[PgEvent.keydown 97], [PgEvent.quit]] :=
  ⟨quit_key_stops_loop.1 [PKey.char 'a'] [PKey.char 's'],
    quit_key_stops_loop.2 [[PgEvent.keydown 97]] [PgEvent.quit]
      [[PgEvent.keydown 115]] (by decide)⟩

